import Mathlib

/-!
Verification of the tree-cache and credential-broker core of the cms
repository, as a shallow embedding of `src/unnamed/part_000` (`updateCache`,
`getCachedCollection`) and `src/lib/token.ts` (`getToken`,
`getInstallationToken`, `getUserToken`).

The persistent store is modelled as explicit lists of rows, the remote
hosting API / remote tree client and the encryption service as functions
carried in an environment record, and every remote call and store mutation
is recorded in an event trace so that ordering and counting properties of
the source can be stated.
-/

namespace CMS

/-! ## Path helpers (Node `path.dirname` / `path.basename` on posix paths) -/

/-- Split a character list on `'/'`, like `String.splitOn "/"`. -/
def splitOnSlash : List Char → List (List Char)
  | [] => [[]]
  | c :: rest =>
    let r := splitOnSlash rest
    if c = '/' then [] :: r
    else (c :: r.headD []) :: r.tail

/-- Join components with `'/'`, the inverse of `splitOnSlash`. -/
def joinSlash : List (List Char) → List Char
  | [] => []
  | [x] => x
  | x :: xs => x ++ '/' :: joinSlash xs

/-- `path.dirname` for the forward-slash paths the cache uses:
everything before the last separator, `"."` when there is none,
`"/"` for a root child. -/
def dirname (p : String) : String :=
  let parts := splitOnSlash p.toList
  if parts.length ≤ 1 then "."
  else
    let dirParts := parts.dropLast
    if dirParts = [[]] then "/" else String.mk (joinSlash dirParts)

/-- `path.basename`: the component after the last separator. -/
def basename (p : String) : String :=
  String.mk ((splitOnSlash p.toList).getLastD [])

/-- `Array.from(new Set(xs))`: deduplication keeping first occurrences. -/
def dedupFirst (l : List String) : List String :=
  l.foldl (fun acc x => if x ∈ acc then acc else acc ++ [x]) []

/-! ## Tree-cache data model (`cachedEntriesTable`) -/

/-- One row of `cachedEntriesTable`. -/
structure CachedEntry where
  owner : String
  repo : String
  branch : String
  path : String
  parentPath : String
  name : String
  type : String
  content : Option String
  sha : Option String
  lastUpdated : Int
  deriving DecidableEq

/-- `{ path: string }` element of `removedFiles`. -/
structure PathOnly where
  path : String
  deriving DecidableEq

/-- `FileChange` from the source: a path together with its target checksum. -/
structure FileChange where
  path : String
  sha : String
  deriving DecidableEq

/-- A blob result of the batched GraphQL query: `text` and `oid`. -/
structure Blob where
  text : String
  oid : String
  deriving DecidableEq

/-- One entry of a remote tree listing (`name/path/type` plus inline blob
content and checksum, used only when `type = "blob"`). -/
structure TreeEntryR where
  name : String
  path : String
  type : String
  text : String
  oid : String
  deriving DecidableEq

/-- The cache's external collaborators: the batched blob query, the tree
listing query (`none` models a transport failure that throws), and the
clock (`Date.now()`). -/
structure CacheEnv where
  fetchBlobs : List String → Option (List Blob)
  fetchTree : String → Option (List TreeEntryR)
  now : Int

/-- Remote calls and store mutations performed by the tree cache, in
program order. -/
inductive CacheEvent
  | remoteBlobQuery (exprs : List String)
  | remoteTreeQuery (expr : String)
  | storeDelete (paths : List String)
  | storeUpdate (path : String)
  | storeInsert (path : String)
  | storeInsertMany (paths : List String)
  deriving DecidableEq

inductive CacheErr
  | RemoteQueryFailed
  deriving DecidableEq

/-- Namespace filter `(owner, repo, branch)` used by every store query. -/
def nsMatch (owner repo branch : String) (e : CachedEntry) : Bool :=
  e.owner == owner && e.repo == repo && e.branch == branch

/-! ## `updateCache` (reconciliation) -/

/-- Step 1: distinct parent directories touched by the three lists. -/
def touchedParentPaths (removedFiles : List PathOnly)
    (modifiedFiles addedFiles : List FileChange) : List String :=
  dedupFirst
    (removedFiles.map (fun f => dirname f.path) ++
     modifiedFiles.map (fun f => dirname f.path) ++
     addedFiles.map (fun f => dirname f.path))

/-- Step 2: which touched parent directories are already cached. -/
def cachedParentPathsOf (owner repo branch : String) (parentPaths : List String)
    (db : List CachedEntry) : List String :=
  if parentPaths.length > 0 then
    dedupFirst
      ((db.filter (fun e =>
          nsMatch owner repo branch e && parentPaths.contains e.parentPath)).map
        (fun e => e.parentPath))
  else []

/-- `filesToRemove`: removed paths whose parent directory is cached. -/
def filesToRemoveOf (cpp : List String) (removedFiles : List PathOnly) :
    List PathOnly :=
  removedFiles.filter (fun f => cpp.contains (dirname f.path))

/-- `filesToFetch`: modified then added paths whose parent directory is
cached. -/
def filesToFetchOf (cpp : List String) (modifiedFiles addedFiles : List FileChange) :
    List FileChange :=
  modifiedFiles.filter (fun f => cpp.contains (dirname f.path)) ++
  addedFiles.filter (fun f => cpp.contains (dirname f.path))

/-- The batched delete of step 3, keyed by exact path within the
namespace. -/
def applyDelete (owner repo branch : String) (paths : List String)
    (db : List CachedEntry) : List CachedEntry :=
  db.filter (fun e => !(nsMatch owner repo branch e && paths.contains e.path))

/-- Store state after the (conditional) delete step. -/
def deleteStepDb (owner repo branch : String) (removedFiles : List PathOnly)
    (cpp : List String) (db : List CachedEntry) : List CachedEntry :=
  if (filesToRemoveOf cpp removedFiles).length > 0 then
    applyDelete owner repo branch ((filesToRemoveOf cpp removedFiles).map (fun f => f.path)) db
  else db

/-- Events of the (conditional) delete step. -/
def deleteStepEv (cpp : List String) (removedFiles : List PathOnly) :
    List CacheEvent :=
  if (filesToRemoveOf cpp removedFiles).length > 0 then
    [CacheEvent.storeDelete ((filesToRemoveOf cpp removedFiles).map (fun f => f.path))]
  else []

/-- The GraphQL expressions `branch:path` of the single batched query. -/
def blobExprsOf (branch : String) (files : List FileChange) : List String :=
  files.map (fun f => branch ++ ":" ++ f.path)

/-- One element of the `updates` array built from the query response. -/
structure UpdateRec where
  path : String
  parentPath : String
  content : String
  sha : String
  lastUpdated : Int
  deriving DecidableEq

/-- Pair each fetched file with its blob result, as the source does by
response alias index. -/
def mkUpdates (now : Int) (files : List FileChange) (blobs : List Blob) :
    List UpdateRec :=
  (files.zip blobs).map (fun fb =>
    { path := fb.1.path
      parentPath := dirname fb.1.path
      content := fb.2.text
      sha := fb.2.oid
      lastUpdated := now })

/-- The in-place content/sha/lastUpdated update of an existing row. -/
def modRow (u : UpdateRec) (e : CachedEntry) : CachedEntry :=
  { e with content := some u.content, sha := some u.sha, lastUpdated := u.lastUpdated }

/-- The freshly inserted row for an added path. -/
def newRow (owner repo branch : String) (u : UpdateRec) : CachedEntry :=
  { owner := owner
    repo := repo
    branch := branch
    path := u.path
    parentPath := u.parentPath
    name := basename u.path
    type := "blob"
    content := some u.content
    sha := some u.sha
    lastUpdated := u.lastUpdated }

/-- The body of the per-update loop: update the existing entry when the
path was modified, insert a new entry otherwise. -/
def applyUpdate (owner repo branch : String) (modifiedFiles : List FileChange)
    (acc : List CachedEntry × List CacheEvent) (u : UpdateRec) :
    List CachedEntry × List CacheEvent :=
  if modifiedFiles.any (fun f => f.path == u.path) then
    (acc.1.map (fun e =>
       if nsMatch owner repo branch e && e.path == u.path then modRow u e else e),
     acc.2 ++ [CacheEvent.storeUpdate u.path])
  else
    (acc.1 ++ [newRow owner repo branch u],
     acc.2 ++ [CacheEvent.storeInsert u.path])

/-- `updateCache` from `src/unnamed/part_000`: restrict the change set to
cached directories, delete removed rows, fetch all remaining paths in one
batched remote query and apply per-row updates/inserts.  Returns the
outcome, the new store state, and the event trace. -/
def updateCache (env : CacheEnv) (owner repo branch : String)
    (removedFiles : List PathOnly) (modifiedFiles addedFiles : List FileChange)
    (db : List CachedEntry) :
    Except CacheErr Unit × List CachedEntry × List CacheEvent :=
  let cpp := cachedParentPathsOf owner repo branch
      (touchedParentPaths removedFiles modifiedFiles addedFiles) db
  let db1 := deleteStepDb owner repo branch removedFiles cpp db
  let ev1 := deleteStepEv cpp removedFiles
  let filesToFetch := filesToFetchOf cpp modifiedFiles addedFiles
  if filesToFetch.length = 0 then (Except.ok (), db1, ev1)
  else
    match env.fetchBlobs (blobExprsOf branch filesToFetch) with
    | none =>
        (Except.error CacheErr.RemoteQueryFailed, db1,
         ev1 ++ [CacheEvent.remoteBlobQuery (blobExprsOf branch filesToFetch)])
    | some blobs =>
        let res := (mkUpdates env.now filesToFetch blobs).foldl
          (applyUpdate owner repo branch modifiedFiles)
          (db1, ev1 ++ [CacheEvent.remoteBlobQuery (blobExprsOf branch filesToFetch)])
        (Except.ok (), res.1, res.2)

/-! ## `getCachedCollection` (directory population) -/

/-- The rows inserted when a directory is populated from the remote
listing. -/
def treeRowsOf (owner repo branch p : String) (now : Int)
    (githubEntries : List TreeEntryR) : List CachedEntry :=
  githubEntries.map (fun entry =>
    { owner := owner
      repo := repo
      branch := branch
      parentPath := p
      name := entry.name
      path := entry.path
      type := entry.type
      content := if entry.type == "blob" then some entry.text else none
      sha := if entry.type == "blob" then some entry.oid else none
      lastUpdated := now })

/-- `getCachedCollection` from `src/unnamed/part_000`: serve the directory
listing from the store, lazily populating it from the remote tree on a
cache miss. -/
def getCachedCollection (env : CacheEnv) (owner repo branch p : String)
    (db : List CachedEntry) :
    Except CacheErr (List CachedEntry) × List CachedEntry × List CacheEvent :=
  let entries := db.filter (fun e => nsMatch owner repo branch e && e.parentPath == p)
  if entries.length = 0 then
    match env.fetchTree (branch ++ ":" ++ p) with
    | none =>
        (Except.error CacheErr.RemoteQueryFailed, db,
         [CacheEvent.remoteTreeQuery (branch ++ ":" ++ p)])
    | some githubEntries =>
        if githubEntries.length > 0 then
          let newRows := treeRowsOf owner repo branch p env.now githubEntries
          (Except.ok newRows, db ++ newRows,
           [CacheEvent.remoteTreeQuery (branch ++ ":" ++ p),
            CacheEvent.storeInsertMany (newRows.map (fun r => r.path))])
        else
          (Except.ok [], db, [CacheEvent.remoteTreeQuery (branch ++ ":" ++ p)])
  else (Except.ok entries, db, [])

/-! ## Credential-broker data model (`src/lib/token.ts`) -/

/-- The caller, with an optional linked external identity (`githubId`). -/
structure User where
  id : Nat
  githubId : Option Nat
  deriving DecidableEq

/-- One row of `subscriptionTable`. -/
structure SubscriptionRow where
  owner : String
  status : String
  deriving DecidableEq

/-- One row of `collaboratorTable`. -/
structure CollaboratorRow where
  owner : String
  repo : String
  deriving DecidableEq

/-- One row of `githubUserTokenTable`. -/
structure UserTokenRow where
  userId : Nat
  ciphertext : String
  iv : String
  deriving DecidableEq

/-- One row of `githubInstallationTokenTable`. -/
structure InstTokenRow where
  id : Nat
  installationId : Nat
  ciphertext : String
  iv : String
  expiresAt : Int
  deriving DecidableEq

/-- The broker's external collaborators: read-only tables, the session
(`getAuth`), the remote hosting API (installation lookup and token mint,
the mint returning the token value and its expiry in epoch seconds), the
encryption service, and the clock in epoch seconds. -/
structure TokenEnv where
  subscriptions : List SubscriptionRow
  collaborators : List CollaboratorRow
  userTokens : List UserTokenRow
  authUser : Option User
  getRepoInstallation : String → String → Option Nat
  mint : Nat → String × Int
  encrypt : String → String × String
  decrypt : String → String → Option String
  now : Int

inductive TokenErr
  | NoActiveSubscription
  | NoPermission
  | InstallationNotFound
  | DecryptionFailed
  | NotAuthenticated
  | NotLinked
  | UserTokenNotFound
  deriving DecidableEq

/-- Checks, remote calls and store mutations performed by the broker, in
program order. -/
inductive TokenEvent
  | querySubscription (owner : String)
  | queryCollaborator (owner repo : String)
  | remoteRepoInstallation (owner repo : String)
  | queryInstTokenRow (installationId : Nat)
  | decryptAttempt
  | remoteMint (installationId : Nat)
  | storeUpdateRow (id : Nat)
  | storeInsertRow (installationId : Nat)
  | queryUserTokenRow (userId : Nat)
  | getAuthCall
  deriving DecidableEq

/-- The autogenerated primary key of an inserted token row. -/
def freshRowId (db : List InstTokenRow) : Nat :=
  db.foldl (fun m r => max m r.id) 0 + 1

/-- `getInstallationToken`: resolve the installation for `(owner, repo)`,
serve the stored token when it is at least 60 seconds from expiry,
otherwise mint a fresh one, encrypt it and update the existing row (or
insert the first row). -/
def getInstallationToken (env : TokenEnv) (owner repo : String)
    (db : List InstTokenRow) :
    Except TokenErr String × List InstTokenRow × List TokenEvent :=
  match env.getRepoInstallation owner repo with
  | none =>
      (Except.error TokenErr.InstallationNotFound, db,
       [TokenEvent.remoteRepoInstallation owner repo])
  | some instId =>
    let ev0 := [TokenEvent.remoteRepoInstallation owner repo,
                TokenEvent.queryInstTokenRow instId]
    match db.find? (fun r => r.installationId == instId) with
    | some td =>
      if env.now < td.expiresAt - 60 then
        match env.decrypt td.ciphertext td.iv with
        | none =>
            (Except.error TokenErr.DecryptionFailed, db,
             ev0 ++ [TokenEvent.decryptAttempt])
        | some tok => (Except.ok tok, db, ev0 ++ [TokenEvent.decryptAttempt])
      else
        let minted := env.mint instId
        let enc := env.encrypt minted.1
        (Except.ok minted.1,
         db.map (fun r =>
           if r.id == td.id then
             { r with ciphertext := enc.1, iv := enc.2, expiresAt := minted.2 }
           else r),
         ev0 ++ [TokenEvent.remoteMint instId, TokenEvent.storeUpdateRow td.id])
    | none =>
      let minted := env.mint instId
      let enc := env.encrypt minted.1
      (Except.ok minted.1,
       db ++ [{ id := freshRowId db
                installationId := instId
                ciphertext := enc.1
                iv := enc.2
                expiresAt := minted.2 }],
       ev0 ++ [TokenEvent.remoteMint instId, TokenEvent.storeInsertRow instId])

/-- `getUserToken`: resolve the session, require a linked external
identity, look up and decrypt the stored personal token. -/
def getUserToken (env : TokenEnv) : Except TokenErr String × List TokenEvent :=
  match env.authUser with
  | none => (Except.error TokenErr.NotAuthenticated, [TokenEvent.getAuthCall])
  | some u =>
    match u.githubId with
    | none => (Except.error TokenErr.NotLinked, [TokenEvent.getAuthCall])
    | some _ =>
      match env.userTokens.find? (fun r => r.userId == u.id) with
      | none =>
          (Except.error TokenErr.UserTokenNotFound,
           [TokenEvent.getAuthCall, TokenEvent.queryUserTokenRow u.id])
      | some td =>
        match env.decrypt td.ciphertext td.iv with
        | none =>
            (Except.error TokenErr.DecryptionFailed,
             [TokenEvent.getAuthCall, TokenEvent.queryUserTokenRow u.id,
              TokenEvent.decryptAttempt])
        | some tok =>
            (Except.ok tok,
             [TokenEvent.getAuthCall, TokenEvent.queryUserTokenRow u.id,
              TokenEvent.decryptAttempt])

/-- The active-subscription predicate of the `subscriptionTable` query. -/
def subIsActive (owner : String) (s : SubscriptionRow) : Bool :=
  s.owner == owner && s.status == "active"

/-- The collaborator-grant predicate of the `collaboratorTable` query. -/
def grantMatches (owner repo : String) (c : CollaboratorRow) : Bool :=
  c.owner == owner && c.repo == repo

/-- `getToken`: personal-identity path when the caller has a linked
external identity; otherwise active-subscription check, then
collaborator-grant check, then the installation token. -/
def getToken (env : TokenEnv) (user : User) (owner repo : String)
    (db : List InstTokenRow) :
    Except TokenErr String × List InstTokenRow × List TokenEvent :=
  match user.githubId with
  | some _ =>
    let r := getUserToken env
    (r.1, db, r.2)
  | none =>
    match env.subscriptions.find? (subIsActive owner) with
    | none =>
        (Except.error TokenErr.NoActiveSubscription, db,
         [TokenEvent.querySubscription owner])
    | some _ =>
      match env.collaborators.find? (grantMatches owner repo) with
      | none =>
          (Except.error TokenErr.NoPermission, db,
           [TokenEvent.querySubscription owner,
            TokenEvent.queryCollaborator owner repo])
      | some _ =>
        let r := getInstallationToken env owner repo db
        (r.1, r.2.1,
         [TokenEvent.querySubscription owner,
          TokenEvent.queryCollaborator owner repo] ++ r.2.2)


/-! ## Event classifiers -/

/-- Remote-call events of the tree cache. -/
def isRemoteQuery : CacheEvent → Bool
  | CacheEvent.remoteBlobQuery _ => true
  | CacheEvent.remoteTreeQuery _ => true
  | _ => false

/-- Content update/insert events of the tree cache. -/
def isUpsert : CacheEvent → Bool
  | CacheEvent.storeUpdate _ => true
  | CacheEvent.storeInsert _ => true
  | _ => false

/-- Mint calls of the credential broker. -/
def isMint : TokenEvent → Bool
  | TokenEvent.remoteMint _ => true
  | _ => false

/-- Broker events that belong to the organizational path: subscription and
grant checks, installation lookup, installation-token row access, minting
and row mutation. -/
def isBrokerCheck : TokenEvent → Bool
  | TokenEvent.querySubscription _ => true
  | TokenEvent.queryCollaborator _ _ => true
  | TokenEvent.remoteRepoInstallation _ _ => true
  | TokenEvent.queryInstTokenRow _ => true
  | TokenEvent.remoteMint _ => true
  | TokenEvent.storeUpdateRow _ => true
  | TokenEvent.storeInsertRow _ => true
  | _ => false

/-! ## Broker lemmas -/

lemma getUserToken_events_user_path (env : TokenEnv) :
    ∀ e ∈ (getUserToken env).2, isBrokerCheck e = false := by
  intro e he
  unfold getUserToken at he
  repeat' split at he
  all_goals (fin_cases he <;> rfl)

lemma countP_instId_map_update (db : List InstTokenRow) (tid : Nat)
    (ct ivv : String) (ea : Int) (j : Nat) :
    (db.map (fun r =>
      if r.id == tid then { r with ciphertext := ct, iv := ivv, expiresAt := ea }
      else r)).countP (fun r => r.installationId == j) =
    db.countP (fun r => r.installationId == j) := by
  rw [List.countP_map]
  apply List.countP_congr
  intro r _
  by_cases h : r.id == tid <;> simp [h, Function.comp]

/-! ## Claim theorems: credential broker -/

/-- C1: with no linked external identity, `getToken` fails with
`NoActiveSubscription` (store untouched, only the subscription query
performed) when no active subscription exists for `owner`; with a
subscription but no collaborator grant it fails with `NoPermission`
before any token mint; when both checks pass it returns the installation
token for `(owner, repo)`; with a linked external identity it returns the
user token without performing either check. -/
theorem getToken_check_order (env : TokenEnv) (user : User) (owner repo : String)
    (db : List InstTokenRow) :
    (user.githubId = none →
      env.subscriptions.find? (subIsActive owner) = none →
      getToken env user owner repo db =
        (Except.error TokenErr.NoActiveSubscription, db,
         [TokenEvent.querySubscription owner]))
    ∧ (user.githubId = none →
       ∀ s, env.subscriptions.find? (subIsActive owner) = some s →
       env.collaborators.find? (grantMatches owner repo) = none →
       getToken env user owner repo db =
         (Except.error TokenErr.NoPermission, db,
          [TokenEvent.querySubscription owner,
           TokenEvent.queryCollaborator owner repo]))
    ∧ (user.githubId = none →
       ∀ s c, env.subscriptions.find? (subIsActive owner) = some s →
       env.collaborators.find? (grantMatches owner repo) = some c →
       getToken env user owner repo db =
         ((getInstallationToken env owner repo db).1,
          (getInstallationToken env owner repo db).2.1,
          [TokenEvent.querySubscription owner,
           TokenEvent.queryCollaborator owner repo] ++
            (getInstallationToken env owner repo db).2.2))
    ∧ (∀ g, user.githubId = some g →
       getToken env user owner repo db =
         ((getUserToken env).1, db, (getUserToken env).2)) := by
  refine ⟨?_, ?_, ?_, ?_⟩
  · intro hg hs
    simp [getToken, hg, hs]
  · intro hg s hs hc
    simp [getToken, hg, hs, hc]
  · intro hg s c hs hc
    simp [getToken, hg, hs, hc]
  · intro g hg
    simp [getToken, hg]

/-- A user with no linked external identity. -/
def sampleUserPlain : User := { id := 2, githubId := none }

/-- A user with a linked external identity. -/
def sampleUserLinked : User := { id := 1, githubId := some 7 }

/-- A broker environment with no subscriptions at all. -/
def sampleTokenEnvNoSub : TokenEnv :=
  { subscriptions := []
    collaborators := []
    userTokens := []
    authUser := none
    getRepoInstallation := fun _ _ => none
    mint := fun _ => ("minted-token", 2000)
    encrypt := fun s => (s, "iv0")
    decrypt := fun _ _ => none
    now := 1000 }

theorem getToken_check_order_witness :
    getToken sampleTokenEnvNoSub sampleUserPlain "o" "r" [] =
      (Except.error TokenErr.NoActiveSubscription, [],
       [TokenEvent.querySubscription "o"]) :=
  (getToken_check_order sampleTokenEnvNoSub sampleUserPlain "o" "r" []).1 rfl rfl

/-- C10: with a linked external identity the result of `getToken` does not
depend on `owner`/`repo`: it is the user token, the installation-token
store is untouched, and no subscription, grant, installation or mint
event occurs. -/
theorem getToken_linked_identity_independent (env : TokenEnv) (user : User)
    (o1 r1 o2 r2 : String) (db : List InstTokenRow) (g : Nat)
    (hg : user.githubId = some g) :
    getToken env user o1 r1 db = getToken env user o2 r2 db
    ∧ getToken env user o1 r1 db = ((getUserToken env).1, db, (getUserToken env).2)
    ∧ ∀ e ∈ (getToken env user o1 r1 db).2.2, isBrokerCheck e = false := by
  refine ⟨?_, ?_, ?_⟩
  · simp [getToken, hg]
  · simp [getToken, hg]
  · intro e he
    have h2 : (getToken env user o1 r1 db).2.2 = (getUserToken env).2 := by
      simp [getToken, hg]
    rw [h2] at he
    exact getUserToken_events_user_path env e he

/-- A broker environment whose session user is linked and has a stored
personal token. -/
def sampleTokenEnvLinked : TokenEnv :=
  { subscriptions := []
    collaborators := []
    userTokens := [{ userId := 1, ciphertext := "ct1", iv := "iv1" }]
    authUser := some sampleUserLinked
    getRepoInstallation := fun _ _ => none
    mint := fun _ => ("minted-token", 2000)
    encrypt := fun s => (s, "iv0")
    decrypt := fun _ _ => some "plain-token"
    now := 1000 }

theorem getToken_linked_identity_independent_witness :
    getToken sampleTokenEnvLinked sampleUserLinked "o1" "r1" [] =
      getToken sampleTokenEnvLinked sampleUserLinked "o2" "r2" [] :=
  (getToken_linked_identity_independent sampleTokenEnvLinked sampleUserLinked
    "o1" "r1" "o2" "r2" [] 7 rfl).1

/-- C3: a stored installation token is treated as valid exactly when
`now < expiresAt - 60` (epoch seconds): inside the window the stored
ciphertext is decrypted and returned with no mint call and the store
untouched; at or past the margin a fresh token is minted, encrypted and
stored by updating the existing row. -/
theorem getInstallationToken_expiry_window (env : TokenEnv) (owner repo : String)
    (db : List InstTokenRow) (instId : Nat) (td : InstTokenRow)
    (hi : env.getRepoInstallation owner repo = some instId)
    (hrow : db.find? (fun r => r.installationId == instId) = some td) :
    (env.now < td.expiresAt - 60 →
      (getInstallationToken env owner repo db).2.1 = db
      ∧ (getInstallationToken env owner repo db).2.2.countP isMint = 0
      ∧ (getInstallationToken env owner repo db).1 =
          (match env.decrypt td.ciphertext td.iv with
           | none => Except.error TokenErr.DecryptionFailed
           | some tok => Except.ok tok))
    ∧ (¬ env.now < td.expiresAt - 60 →
      (getInstallationToken env owner repo db).1 = Except.ok (env.mint instId).1
      ∧ (getInstallationToken env owner repo db).2.2.countP isMint = 1
      ∧ (getInstallationToken env owner repo db).2.1 =
          db.map (fun r =>
            if r.id == td.id then
              { r with ciphertext := (env.encrypt (env.mint instId).1).1
                       iv := (env.encrypt (env.mint instId).1).2
                       expiresAt := (env.mint instId).2 }
            else r)) := by
  constructor
  · intro hv
    refine ⟨?_, ?_, ?_⟩ <;>
      · simp only [getInstallationToken, hi, hrow, if_pos hv]
        rcases hd : env.decrypt td.ciphertext td.iv with _ | tok <;>
          simp [hd, List.countP_cons, isMint]
  · intro hv
    refine ⟨?_, ?_, ?_⟩ <;>
      simp [getInstallationToken, hi, hrow, if_neg hv, List.countP_cons, isMint]

/-- A single stored installation-token row, 120 seconds from expiry. -/
def sampleInstRowFresh : InstTokenRow :=
  { id := 3, installationId := 5, ciphertext := "ct5", iv := "iv5", expiresAt := 1120 }

/-- A broker environment holding an installation for `("o", "r")` whose
stored token decrypts successfully. -/
def sampleTokenEnvInst : TokenEnv :=
  { subscriptions := [{ owner := "o", status := "active" }]
    collaborators := [{ owner := "o", repo := "r" }]
    userTokens := []
    authUser := none
    getRepoInstallation := fun _ _ => some 5
    mint := fun _ => ("minted-token", 2000)
    encrypt := fun s => (s, "iv0")
    decrypt := fun _ _ => some "plain-token"
    now := 1000 }

theorem getInstallationToken_expiry_window_witness :
    (getInstallationToken sampleTokenEnvInst "o" "r" [sampleInstRowFresh]).2.2.countP
        isMint = 0 :=
  ((getInstallationToken_expiry_window sampleTokenEnvInst "o" "r"
      [sampleInstRowFresh] 5 sampleInstRowFresh rfl rfl).1 (by decide)).2.1

/-- C9: inside the validity window a decryption failure surfaces as the
hard `DecryptionFailed` error: no mint call, no store mutation, the call
returns the error with only the lookup and decryption attempt in its
trace. -/
theorem getInstallationToken_decrypt_failure_hard (env : TokenEnv)
    (owner repo : String) (db : List InstTokenRow) (instId : Nat)
    (td : InstTokenRow)
    (hi : env.getRepoInstallation owner repo = some instId)
    (hrow : db.find? (fun r => r.installationId == instId) = some td)
    (hv : env.now < td.expiresAt - 60)
    (hd : env.decrypt td.ciphertext td.iv = none) :
    getInstallationToken env owner repo db =
      (Except.error TokenErr.DecryptionFailed, db,
       [TokenEvent.remoteRepoInstallation owner repo,
        TokenEvent.queryInstTokenRow instId, TokenEvent.decryptAttempt]) := by
  simp [getInstallationToken, hi, hrow, if_pos hv, hd]

/-- A broker environment like `sampleTokenEnvInst` but whose decryption
always fails. -/
def sampleTokenEnvBadCrypt : TokenEnv :=
  { subscriptions := [{ owner := "o", status := "active" }]
    collaborators := [{ owner := "o", repo := "r" }]
    userTokens := []
    authUser := none
    getRepoInstallation := fun _ _ => some 5
    mint := fun _ => ("minted-token", 2000)
    encrypt := fun s => (s, "iv0")
    decrypt := fun _ _ => none
    now := 1000 }

theorem getInstallationToken_decrypt_failure_hard_witness :
    getInstallationToken sampleTokenEnvBadCrypt "o" "r" [sampleInstRowFresh] =
      (Except.error TokenErr.DecryptionFailed, [sampleInstRowFresh],
       [TokenEvent.remoteRepoInstallation "o" "r",
        TokenEvent.queryInstTokenRow 5, TokenEvent.decryptAttempt]) :=
  getInstallationToken_decrypt_failure_hard sampleTokenEnvBadCrypt "o" "r"
    [sampleInstRowFresh] 5 sampleInstRowFresh rfl rfl (by decide) rfl

/-- C5: `getInstallationToken` preserves "at most one row per
`installationId`", and renewing an expired token performs exactly one
mint call and keeps the row count of that installation unchanged (the
existing row is updated, not duplicated). -/
theorem getInstallationToken_row_invariant (env : TokenEnv) (owner repo : String)
    (db : List InstTokenRow)
    (hinv : ∀ j, db.countP (fun r => r.installationId == j) ≤ 1) :
    (∀ j, (getInstallationToken env owner repo db).2.1.countP
        (fun r => r.installationId == j) ≤ 1)
    ∧ (∀ instId td, env.getRepoInstallation owner repo = some instId →
        db.find? (fun r => r.installationId == instId) = some td →
        ¬ env.now < td.expiresAt - 60 →
        (getInstallationToken env owner repo db).2.2.countP isMint = 1
        ∧ ∀ j, (getInstallationToken env owner repo db).2.1.countP
            (fun r => r.installationId == j) =
            db.countP (fun r => r.installationId == j)) := by
  constructor
  · intro j
    rcases hi : env.getRepoInstallation owner repo with _ | instId
    · simpa [getInstallationToken, hi] using hinv j
    · rcases hrow : db.find? (fun r => r.installationId == instId) with _ | td
      · by_cases hj : instId = j
        · subst hj
          have hz : db.countP (fun r => r.installationId == instId) = 0 := by
            rw [List.countP_eq_zero]
            intro r hr
            exact List.find?_eq_none.mp hrow r hr
          simp [getInstallationToken, hi, hrow, List.countP_append,
            List.countP_cons, hz]
        · have : ((⟨freshRowId db, instId, (env.encrypt (env.mint instId).1).1,
              (env.encrypt (env.mint instId).1).2,
              (env.mint instId).2⟩ : InstTokenRow).installationId == j) = false := by
            simp [hj]
          simp only [getInstallationToken, hi, hrow, List.countP_append]
          simpa [List.countP_cons, this] using hinv j
      · by_cases hv : env.now < td.expiresAt - 60
        · rcases hd : env.decrypt td.ciphertext td.iv with _ | tok <;>
            simpa [getInstallationToken, hi, hrow, if_pos hv, hd] using hinv j
        · simp only [getInstallationToken, hi, hrow, if_neg hv]
          rw [countP_instId_map_update]
          exact hinv j
  · intro instId td hi hrow hv
    constructor
    · simp [getInstallationToken, hi, hrow, if_neg hv, List.countP_cons, isMint]
    · intro j
      simp only [getInstallationToken, hi, hrow, if_neg hv]
      exact countP_instId_map_update db td.id _ _ _ j

/-- A single stored installation-token row, expired one second ago. -/
def sampleInstRowStale : InstTokenRow :=
  { id := 3, installationId := 5, ciphertext := "ct5", iv := "iv5", expiresAt := 999 }

theorem getInstallationToken_row_invariant_witness :
    (getInstallationToken sampleTokenEnvInst "o" "r" [sampleInstRowStale]).2.2.countP
        isMint = 1 :=
  ((getInstallationToken_row_invariant sampleTokenEnvInst "o" "r"
      [sampleInstRowStale]
      (fun j => by
        by_cases hj : (5 : Nat) = j <;>
          simp [sampleInstRowStale, List.countP_cons, hj])).2
    5 sampleInstRowStale rfl rfl (by decide)).1

/-! ## Tree-cache lemmas -/

/-- The restricted modified+added set of a reconcile call. -/
def restrictedFetchSet (owner repo branch : String) (removedFiles : List PathOnly)
    (modifiedFiles addedFiles : List FileChange) (db : List CachedEntry) :
    List FileChange :=
  filesToFetchOf (cachedParentPathsOf owner repo branch
    (touchedParentPaths removedFiles modifiedFiles addedFiles) db)
    modifiedFiles addedFiles

lemma updateCache_eq_of_fetch_empty (env : CacheEnv) (owner repo branch : String)
    (removedFiles : List PathOnly) (modifiedFiles addedFiles : List FileChange)
    (db : List CachedEntry)
    (hk : restrictedFetchSet owner repo branch removedFiles modifiedFiles addedFiles db = []) :
    updateCache env owner repo branch removedFiles modifiedFiles addedFiles db =
      (Except.ok (),
       deleteStepDb owner repo branch removedFiles
         (cachedParentPathsOf owner repo branch
           (touchedParentPaths removedFiles modifiedFiles addedFiles) db) db,
       deleteStepEv (cachedParentPathsOf owner repo branch
         (touchedParentPaths removedFiles modifiedFiles addedFiles) db) removedFiles) := by
  unfold restrictedFetchSet at hk
  simp only [updateCache]
  rw [hk]
  simp

lemma updateCache_eq_of_fetch_none (env : CacheEnv) (owner repo branch : String)
    (removedFiles : List PathOnly) (modifiedFiles addedFiles : List FileChange)
    (db : List CachedEntry)
    (hk : restrictedFetchSet owner repo branch removedFiles modifiedFiles addedFiles db ≠ [])
    (hfetch : env.fetchBlobs (blobExprsOf branch
      (restrictedFetchSet owner repo branch removedFiles modifiedFiles addedFiles db)) = none) :
    updateCache env owner repo branch removedFiles modifiedFiles addedFiles db =
      (Except.error CacheErr.RemoteQueryFailed,
       deleteStepDb owner repo branch removedFiles
         (cachedParentPathsOf owner repo branch
           (touchedParentPaths removedFiles modifiedFiles addedFiles) db) db,
       deleteStepEv (cachedParentPathsOf owner repo branch
           (touchedParentPaths removedFiles modifiedFiles addedFiles) db) removedFiles ++
         [CacheEvent.remoteBlobQuery (blobExprsOf branch
           (restrictedFetchSet owner repo branch removedFiles modifiedFiles addedFiles db))]) := by
  have hk0 : ¬ (restrictedFetchSet owner repo branch removedFiles modifiedFiles
      addedFiles db).length = 0 := by
    simpa [List.length_eq_zero] using hk
  unfold restrictedFetchSet at hk0 hfetch ⊢
  simp only [updateCache]
  rw [if_neg hk0, hfetch]

lemma updateCache_eq_of_fetch_some (env : CacheEnv) (owner repo branch : String)
    (removedFiles : List PathOnly) (modifiedFiles addedFiles : List FileChange)
    (db : List CachedEntry) (blobs : List Blob)
    (hk : restrictedFetchSet owner repo branch removedFiles modifiedFiles addedFiles db ≠ [])
    (hfetch : env.fetchBlobs (blobExprsOf branch
      (restrictedFetchSet owner repo branch removedFiles modifiedFiles addedFiles db)) = some blobs) :
    updateCache env owner repo branch removedFiles modifiedFiles addedFiles db =
      (Except.ok (),
       ((mkUpdates env.now (restrictedFetchSet owner repo branch removedFiles
           modifiedFiles addedFiles db) blobs).foldl
         (applyUpdate owner repo branch modifiedFiles)
         (deleteStepDb owner repo branch removedFiles
           (cachedParentPathsOf owner repo branch
             (touchedParentPaths removedFiles modifiedFiles addedFiles) db) db,
          deleteStepEv (cachedParentPathsOf owner repo branch
             (touchedParentPaths removedFiles modifiedFiles addedFiles) db) removedFiles ++
            [CacheEvent.remoteBlobQuery (blobExprsOf branch
              (restrictedFetchSet owner repo branch removedFiles modifiedFiles addedFiles db))])).1,
       ((mkUpdates env.now (restrictedFetchSet owner repo branch removedFiles
           modifiedFiles addedFiles db) blobs).foldl
         (applyUpdate owner repo branch modifiedFiles)
         (deleteStepDb owner repo branch removedFiles
           (cachedParentPathsOf owner repo branch
             (touchedParentPaths removedFiles modifiedFiles addedFiles) db) db,
          deleteStepEv (cachedParentPathsOf owner repo branch
             (touchedParentPaths removedFiles modifiedFiles addedFiles) db) removedFiles ++
            [CacheEvent.remoteBlobQuery (blobExprsOf branch
              (restrictedFetchSet owner repo branch removedFiles modifiedFiles addedFiles db))])).2) := by
  have hk0 : ¬ (restrictedFetchSet owner repo branch removedFiles modifiedFiles
      addedFiles db).length = 0 := by
    simpa [List.length_eq_zero] using hk
  unfold restrictedFetchSet at hk0 hfetch ⊢
  simp only [updateCache]
  rw [if_neg hk0, hfetch]

/-! ## Claim theorems: tree cache -/

/-- C7: when a directory already has cached children,
`getCachedCollection` returns exactly those rows with no remote call and
no store mutation, and calling it again on the resulting store is
identical. -/
theorem populateDirectory_cache_hit (env : CacheEnv) (owner repo branch p : String)
    (db : List CachedEntry)
    (hhit : db.filter (fun e => nsMatch owner repo branch e && e.parentPath == p) ≠ []) :
    getCachedCollection env owner repo branch p db =
      (Except.ok (db.filter (fun e => nsMatch owner repo branch e && e.parentPath == p)),
       db, [])
    ∧ getCachedCollection env owner repo branch p
        (getCachedCollection env owner repo branch p db).2.1 =
      getCachedCollection env owner repo branch p db := by
  have h0 : ¬ (db.filter (fun e =>
      nsMatch owner repo branch e && e.parentPath == p)).length = 0 := by
    simpa [List.length_eq_zero] using hhit
  have h1 : getCachedCollection env owner repo branch p db =
      (Except.ok (db.filter (fun e =>
        nsMatch owner repo branch e && e.parentPath == p)), db, []) := by
    unfold getCachedCollection
    rw [if_neg h0]
  refine ⟨h1, ?_⟩
  rw [h1]
  exact h1

/-- A cached blob entry in directory `docs` of namespace
`("o", "r", "main")`. -/
def sampleEntry : CachedEntry :=
  { owner := "o", repo := "r", branch := "main", path := "docs/a.md",
    parentPath := "docs", name := "a.md", type := "blob",
    content := some "hello", sha := some "s1", lastUpdated := 0 }

/-- A cache environment whose batched blob query answers every expression
with a fixed blob and whose tree query answers with an empty listing. -/
def sampleCacheEnv : CacheEnv :=
  { fetchBlobs := fun exprs => some (exprs.map (fun _ => { text := "t2", oid := "s2" }))
    fetchTree := fun _ => some []
    now := 100 }

theorem populateDirectory_cache_hit_witness :
    getCachedCollection sampleCacheEnv "o" "r" "main" "docs" [sampleEntry] =
      (Except.ok [sampleEntry], [sampleEntry], []) :=
  ((populateDirectory_cache_hit sampleCacheEnv "o" "r" "main" "docs" [sampleEntry]
    (by decide)).1).trans rfl

/-- C8: a change set all of whose touched parent directories are uncached
in the namespace produces no store mutation and no remote call: the
reconcile call returns with the store unchanged and an empty trace. -/
theorem updateCache_uncached_noop (env : CacheEnv) (owner repo branch : String)
    (removedFiles : List PathOnly) (modifiedFiles addedFiles : List FileChange)
    (db : List CachedEntry)
    (huncached : ∀ e ∈ db, nsMatch owner repo branch e = true →
      (touchedParentPaths removedFiles modifiedFiles addedFiles).contains
        e.parentPath = false) :
    updateCache env owner repo branch removedFiles modifiedFiles addedFiles db =
      (Except.ok (), db, []) := by
  have hent : db.filter (fun e => nsMatch owner repo branch e &&
      (touchedParentPaths removedFiles modifiedFiles addedFiles).contains
        e.parentPath) = [] := by
    rw [List.filter_eq_nil_iff]
    intro e he hcontra
    rw [Bool.and_eq_true] at hcontra
    have hfalse := huncached e he hcontra.1
    rw [hfalse] at hcontra
    exact Bool.false_ne_true hcontra.2
  have hcpp : cachedParentPathsOf owner repo branch
      (touchedParentPaths removedFiles modifiedFiles addedFiles) db = [] := by
    unfold cachedParentPathsOf
    rw [hent]
    split <;> simp [dedupFirst]
  have hK : restrictedFetchSet owner repo branch removedFiles modifiedFiles
      addedFiles db = [] := by
    unfold restrictedFetchSet filesToFetchOf
    rw [hcpp]
    simp
  rw [updateCache_eq_of_fetch_empty env owner repo branch removedFiles
    modifiedFiles addedFiles db hK, hcpp]
  simp [deleteStepDb, deleteStepEv, filesToRemoveOf]

/-- A change set touching only the uncached directory `other`. -/
def sampleModifiedUncached : FileChange := { path := "other/b.md", sha := "s9" }

theorem updateCache_uncached_noop_witness :
    updateCache sampleCacheEnv "o" "r" "main" [] [sampleModifiedUncached] []
        [sampleEntry] = (Except.ok (), [sampleEntry], []) :=
  updateCache_uncached_noop sampleCacheEnv "o" "r" "main" [] [sampleModifiedUncached]
    [] [sampleEntry] (by decide)

lemma deleteStepEv_filter (cpp : List String) (removedFiles : List PathOnly)
    (p : CacheEvent → Bool) (hp : ∀ ps, p (CacheEvent.storeDelete ps) = false) :
    (deleteStepEv cpp removedFiles).filter p = [] := by
  unfold deleteStepEv
  split
  · simp [hp]
  · rfl

lemma applyUpdate_eq_mod (owner repo branch : String)
    (modifiedFiles : List FileChange) (acc : List CachedEntry × List CacheEvent)
    (u : UpdateRec)
    (h : (modifiedFiles.any fun f => f.path == u.path) = true) :
    applyUpdate owner repo branch modifiedFiles acc u =
      (acc.1.map (fun e =>
        if nsMatch owner repo branch e && e.path == u.path then modRow u e else e),
       acc.2 ++ [CacheEvent.storeUpdate u.path]) := by
  unfold applyUpdate
  rw [if_pos h]

lemma applyUpdate_eq_add (owner repo branch : String)
    (modifiedFiles : List FileChange) (acc : List CachedEntry × List CacheEvent)
    (u : UpdateRec)
    (h : ¬ (modifiedFiles.any fun f => f.path == u.path) = true) :
    applyUpdate owner repo branch modifiedFiles acc u =
      (acc.1 ++ [newRow owner repo branch u],
       acc.2 ++ [CacheEvent.storeInsert u.path]) := by
  unfold applyUpdate
  rw [if_neg h]

lemma foldl_applyUpdate_events_filter (owner repo branch : String)
    (modifiedFiles : List FileChange) (p : CacheEvent → Bool)
    (hp : ∀ q, p (CacheEvent.storeUpdate q) = false ∧
      p (CacheEvent.storeInsert q) = false) :
    ∀ (us : List UpdateRec) (d : List CachedEntry) (evs : List CacheEvent),
    ((us.foldl (applyUpdate owner repo branch modifiedFiles) (d, evs)).2).filter p =
      evs.filter p := by
  intro us
  induction us with
  | nil => intro d evs; rfl
  | cons u tl ih =>
    intro d evs
    rw [List.foldl_cons]
    by_cases hmod : (modifiedFiles.any fun f => f.path == u.path) = true
    · rw [applyUpdate_eq_mod owner repo branch modifiedFiles (d, evs) u hmod, ih]
      simp [List.filter_append, (hp u.path).1]
    · rw [applyUpdate_eq_add owner repo branch modifiedFiles (d, evs) u hmod, ih]
      simp [List.filter_append, (hp u.path).2]

/-- C2: whenever the restricted modified+added set is non-empty, the
reconcile call performs exactly one remote query, the batched blob query
whose expression list is `branch:path` for each of the `k` restricted
paths — never per-file remote calls. -/
theorem updateCache_single_batched_query (env : CacheEnv) (owner repo branch : String)
    (removedFiles : List PathOnly) (modifiedFiles addedFiles : List FileChange)
    (db : List CachedEntry)
    (hk : restrictedFetchSet owner repo branch removedFiles modifiedFiles
      addedFiles db ≠ []) :
    ((updateCache env owner repo branch removedFiles modifiedFiles addedFiles
        db).2.2).filter isRemoteQuery =
      [CacheEvent.remoteBlobQuery (blobExprsOf branch
        (restrictedFetchSet owner repo branch removedFiles modifiedFiles addedFiles db))]
    ∧ (blobExprsOf branch (restrictedFetchSet owner repo branch removedFiles
        modifiedFiles addedFiles db)).length =
      (restrictedFetchSet owner repo branch removedFiles modifiedFiles
        addedFiles db).length := by
  have hdel : ∀ ps, isRemoteQuery (CacheEvent.storeDelete ps) = false :=
    fun _ => rfl
  refine ⟨?_, by simp [blobExprsOf]⟩
  rcases hfb : env.fetchBlobs (blobExprsOf branch (restrictedFetchSet owner repo
      branch removedFiles modifiedFiles addedFiles db)) with _ | blobs
  · rw [updateCache_eq_of_fetch_none env owner repo branch removedFiles
      modifiedFiles addedFiles db hk hfb]
    simp [List.filter_append, deleteStepEv_filter _ _ _ hdel, isRemoteQuery]
  · rw [updateCache_eq_of_fetch_some env owner repo branch removedFiles
      modifiedFiles addedFiles db blobs hk hfb]
    rw [foldl_applyUpdate_events_filter owner repo branch modifiedFiles
      isRemoteQuery (fun q => ⟨rfl, rfl⟩)]
    simp [List.filter_append, deleteStepEv_filter _ _ _ hdel, isRemoteQuery]

/-- A modified file inside the cached directory `docs`. -/
def sampleModified : FileChange := { path := "docs/a.md", sha := "s2" }

theorem updateCache_single_batched_query_witness :
    ((updateCache sampleCacheEnv "o" "r" "main" [] [sampleModified] []
        [sampleEntry]).2.2).filter isRemoteQuery =
      [CacheEvent.remoteBlobQuery ["main:docs/a.md"]] :=
  ((updateCache_single_batched_query sampleCacheEnv "o" "r" "main" []
    [sampleModified] [] [sampleEntry] (by decide)).1).trans rfl

/-- C4: if the batched remote fetch of a reconcile call fails, the call
aborts with `RemoteQueryFailed` and no content update or insert has
occurred — the store holds exactly the deletion-applied state, the trace
contains no update/insert event, and the batched delete of removed paths
(when any) is still the first event. -/
theorem updateCache_fetch_failure_atomic (env : CacheEnv) (owner repo branch : String)
    (removedFiles : List PathOnly) (modifiedFiles addedFiles : List FileChange)
    (db : List CachedEntry)
    (hk : restrictedFetchSet owner repo branch removedFiles modifiedFiles
      addedFiles db ≠ [])
    (hfail : env.fetchBlobs (blobExprsOf branch (restrictedFetchSet owner repo
      branch removedFiles modifiedFiles addedFiles db)) = none) :
    (updateCache env owner repo branch removedFiles modifiedFiles addedFiles db).1 =
      Except.error CacheErr.RemoteQueryFailed
    ∧ (updateCache env owner repo branch removedFiles modifiedFiles addedFiles db).2.1 =
      deleteStepDb owner repo branch removedFiles
        (cachedParentPathsOf owner repo branch
          (touchedParentPaths removedFiles modifiedFiles addedFiles) db) db
    ∧ ((updateCache env owner repo branch removedFiles modifiedFiles addedFiles
        db).2.2).filter isUpsert = []
    ∧ (filesToRemoveOf (cachedParentPathsOf owner repo branch
        (touchedParentPaths removedFiles modifiedFiles addedFiles) db)
        removedFiles ≠ [] →
      ((updateCache env owner repo branch removedFiles modifiedFiles addedFiles
        db).2.2).head? = some (CacheEvent.storeDelete
          ((filesToRemoveOf (cachedParentPathsOf owner repo branch
            (touchedParentPaths removedFiles modifiedFiles addedFiles) db)
            removedFiles).map (fun f => f.path)))) := by
  rw [updateCache_eq_of_fetch_none env owner repo branch removedFiles
    modifiedFiles addedFiles db hk hfail]
  refine ⟨rfl, rfl, ?_, ?_⟩
  · simp [List.filter_append,
      deleteStepEv_filter _ _ isUpsert (fun _ => rfl), isUpsert]
  · intro hrem
    have : (filesToRemoveOf (cachedParentPathsOf owner repo branch
        (touchedParentPaths removedFiles modifiedFiles addedFiles) db)
        removedFiles).length > 0 := by
      cases h : filesToRemoveOf (cachedParentPathsOf owner repo branch
          (touchedParentPaths removedFiles modifiedFiles addedFiles) db)
          removedFiles with
      | nil => exact absurd h hrem
      | cons a l => simp [h]
    simp [deleteStepEv, if_pos this]

/-- A cache environment whose remote blob query always fails. -/
def sampleCacheEnvFail : CacheEnv :=
  { fetchBlobs := fun _ => none
    fetchTree := fun _ => none
    now := 100 }

/-- A removed file inside the cached directory `docs`. -/
def sampleRemoved : PathOnly := { path := "docs/a.md" }

theorem updateCache_fetch_failure_atomic_witness :
    (updateCache sampleCacheEnvFail "o" "r" "main" [sampleRemoved]
        [sampleModified] [] [sampleEntry]).1 =
      Except.error CacheErr.RemoteQueryFailed ∧
    (updateCache sampleCacheEnvFail "o" "r" "main" [sampleRemoved]
        [sampleModified] [] [sampleEntry]).2.1 = [] := by
  have h := updateCache_fetch_failure_atomic sampleCacheEnvFail "o" "r" "main"
    [sampleRemoved] [sampleModified] [] [sampleEntry] (by decide) rfl
  exact ⟨h.1, h.2.1.trans (by decide)⟩

/-! ## Per-row shape lemmas for reconciliation (C6) -/

/-- All identifying fields (everything except content/sha/lastUpdated)
of `rr` agree with those of `r`. -/
def shapePreserved (r rr : CachedEntry) : Prop :=
  rr.owner = r.owner ∧ rr.repo = r.repo ∧ rr.branch = r.branch ∧
  rr.path = r.path ∧ rr.parentPath = r.parentPath ∧ rr.name = r.name ∧
  rr.type = r.type

/-- `rr` has the shape of a row inserted for an added path: namespace
fields set, `parentPath = dirname path`, `type = "blob"`,
`name = basename path`, and its path is one of the added paths. -/
def insertedShape (owner repo branch : String) (addedFiles : List FileChange)
    (rr : CachedEntry) : Prop :=
  rr.owner = owner ∧ rr.repo = repo ∧ rr.branch = branch ∧
  rr.parentPath = dirname rr.path ∧ rr.type = "blob" ∧
  rr.name = basename rr.path ∧ (addedFiles.any fun f => f.path == rr.path) = true

/-- `rr` is a row for path `p` with the inserted-entry shape. -/
def addedRowShape (p : String) (rr : CachedEntry) : Prop :=
  rr.path = p ∧ rr.parentPath = dirname p ∧ rr.type = "blob" ∧
  rr.name = basename p

lemma deleteStepDb_subset (owner repo branch : String)
    (removedFiles : List PathOnly) (cpp : List String) (db : List CachedEntry) :
    ∀ rr ∈ deleteStepDb owner repo branch removedFiles cpp db, rr ∈ db := by
  intro rr h
  unfold deleteStepDb applyDelete at h
  split at h
  · exact List.mem_of_mem_filter h
  · exact h

lemma storeInsert_not_mem_deleteStepEv (cpp : List String)
    (removedFiles : List PathOnly) (p : String) :
    CacheEvent.storeInsert p ∉ deleteStepEv cpp removedFiles := by
  unfold deleteStepEv
  split
  · simp
  · simp

lemma mkUpdates_mem (now : Int) (files : List FileChange) (blobs : List Blob)
    (u : UpdateRec) (hu : u ∈ mkUpdates now files blobs) :
    u.parentPath = dirname u.path ∧ ∃ f ∈ files, u.path = f.path := by
  unfold mkUpdates at hu
  rcases List.mem_map.mp hu with ⟨fb, hfb, rfl⟩
  obtain ⟨f, b⟩ := fb
  exact ⟨rfl, f, (List.of_mem_zip hfb).1, rfl⟩

lemma mem_zip_left {α β : Type} :
    ∀ (l : List α) (l2 : List β), l.length ≤ l2.length →
    ∀ a ∈ l, ∃ b, (a, b) ∈ l.zip l2 := by
  intro l
  induction l with
  | nil => intro l2 h a ha; cases ha
  | cons x xs ih =>
    intro l2 h a ha
    cases l2 with
    | nil => simp at h
    | cons y ys =>
      rcases List.mem_cons.mp ha with rfl | ha
      · exact ⟨y, List.mem_cons_self _ _⟩
      · rcases ih ys (Nat.le_of_succ_le_succ h) a ha with ⟨b, hb⟩
        exact ⟨b, List.mem_cons_of_mem _ hb⟩

lemma foldl_applyUpdate_keeps_shape (owner repo branch : String)
    (modifiedFiles : List FileChange) (p : String) :
    ∀ (us : List UpdateRec) (d : List CachedEntry) (evs : List CacheEvent),
    (∃ rr ∈ d, addedRowShape p rr) →
    ∃ rr ∈ (us.foldl (applyUpdate owner repo branch modifiedFiles) (d, evs)).1,
      addedRowShape p rr := by
  intro us
  induction us with
  | nil => intro d evs h; exact h
  | cons u tl ih =>
    intro d evs h
    rcases h with ⟨rr, hrr, hsh⟩
    rw [List.foldl_cons]
    by_cases hmod : (modifiedFiles.any fun f => f.path == u.path) = true
    · rw [applyUpdate_eq_mod owner repo branch modifiedFiles (d, evs) u hmod]
      apply ih
      refine ⟨_, List.mem_map_of_mem _ hrr, ?_⟩
      by_cases hc : (nsMatch owner repo branch rr && rr.path == u.path) = true
      · rw [if_pos hc]
        exact hsh
      · rw [if_neg hc]
        exact hsh
    · rw [applyUpdate_eq_add owner repo branch modifiedFiles (d, evs) u hmod]
      apply ih
      exact ⟨rr, List.mem_append_left _ hrr, hsh⟩

lemma foldl_applyUpdate_rows_shape (owner repo branch : String)
    (modifiedFiles addedFiles : List FileChange) (db0 : List CachedEntry) :
    ∀ us : List UpdateRec,
    (∀ u ∈ us, u.parentPath = dirname u.path ∧
      ((modifiedFiles.any fun f => f.path == u.path) = true ∨
       (addedFiles.any fun f => f.path == u.path) = true)) →
    ∀ (d : List CachedEntry) (evs : List CacheEvent),
    (∀ rr ∈ d, (∃ r ∈ db0, shapePreserved r rr) ∨
      insertedShape owner repo branch addedFiles rr) →
    ∀ rr ∈ (us.foldl (applyUpdate owner repo branch modifiedFiles) (d, evs)).1,
      (∃ r ∈ db0, shapePreserved r rr) ∨
      insertedShape owner repo branch addedFiles rr := by
  intro us
  induction us with
  | nil => intro _ d evs hd rr hrr; exact hd rr hrr
  | cons u tl ih =>
    intro hus d evs hd
    rw [List.foldl_cons]
    by_cases hmod : (modifiedFiles.any fun f => f.path == u.path) = true
    · rw [applyUpdate_eq_mod owner repo branch modifiedFiles (d, evs) u hmod]
      apply ih (fun v hv => hus v (List.mem_cons_of_mem u hv))
      intro rr hrr
      rcases List.mem_map.mp hrr with ⟨e, he, rfl⟩
      by_cases hc : (nsMatch owner repo branch e && e.path == u.path) = true
      · rw [if_pos hc]
        rcases hd e he with ⟨r, hr, hsp⟩ | hins
        · exact Or.inl ⟨r, hr, hsp⟩
        · exact Or.inr hins
      · rw [if_neg hc]
        exact hd e he
    · rw [applyUpdate_eq_add owner repo branch modifiedFiles (d, evs) u hmod]
      apply ih (fun v hv => hus v (List.mem_cons_of_mem u hv))
      intro rr hrr
      rcases List.mem_append.mp hrr with hin | hnew
      · exact hd rr hin
      · right
        have heq : rr = newRow owner repo branch u := List.mem_singleton.mp hnew
        subst heq
        rcases hus u (List.mem_cons_self u tl) with ⟨hpp, hdisj2⟩
        have hadd : (addedFiles.any fun f => f.path == u.path) = true := by
          rcases hdisj2 with hm | ha
          · exact absurd hm hmod
          · exact ha
        exact ⟨rfl, rfl, rfl, hpp, rfl, rfl, hadd⟩

lemma foldl_applyUpdate_creates (owner repo branch : String)
    (modifiedFiles : List FileChange) :
    ∀ (us : List UpdateRec) (d : List CachedEntry) (evs : List CacheEvent)
      (u : UpdateRec), u ∈ us →
    u.parentPath = dirname u.path →
    ¬ (modifiedFiles.any fun f => f.path == u.path) = true →
    ∃ rr ∈ (us.foldl (applyUpdate owner repo branch modifiedFiles) (d, evs)).1,
      addedRowShape u.path rr := by
  intro us
  induction us with
  | nil => intro d evs u hu; cases hu
  | cons v tl ih =>
    intro d evs u hu hpp hmod
    rw [List.foldl_cons]
    rcases List.mem_cons.mp hu with rfl | hu
    · rw [applyUpdate_eq_add owner repo branch modifiedFiles (d, evs) u hmod]
      apply foldl_applyUpdate_keeps_shape
      exact ⟨newRow owner repo branch u,
        List.mem_append_right _ (List.mem_singleton_self _),
        rfl, hpp, rfl, rfl⟩
    · by_cases hm : (modifiedFiles.any fun f => f.path == v.path) = true
      · rw [applyUpdate_eq_mod owner repo branch modifiedFiles (d, evs) v hm]
        exact ih _ _ u hu hpp hmod
      · rw [applyUpdate_eq_add owner repo branch modifiedFiles (d, evs) v hm]
        exact ih _ _ u hu hpp hmod

lemma foldl_applyUpdate_no_insert (owner repo branch : String)
    (modifiedFiles : List FileChange) (p : String)
    (hp : (modifiedFiles.any fun f => f.path == p) = true) :
    ∀ (us : List UpdateRec) (d : List CachedEntry) (evs : List CacheEvent),
    CacheEvent.storeInsert p ∉ evs →
    CacheEvent.storeInsert p ∉
      (us.foldl (applyUpdate owner repo branch modifiedFiles) (d, evs)).2 := by
  intro us
  induction us with
  | nil => intro d evs h; exact h
  | cons u tl ih =>
    intro d evs hev
    rw [List.foldl_cons]
    by_cases hmod : (modifiedFiles.any fun f => f.path == u.path) = true
    · rw [applyUpdate_eq_mod owner repo branch modifiedFiles (d, evs) u hmod]
      apply ih
      intro hmem
      rcases List.mem_append.mp hmem with h | h
      · exact hev h
      · exact absurd (List.mem_singleton.mp h) (by simp)
    · rw [applyUpdate_eq_add owner repo branch modifiedFiles (d, evs) u hmod]
      apply ih
      intro hmem
      rcases List.mem_append.mp hmem with h | h
      · exact hev h
      · have h2 := List.mem_singleton.mp h
        have h3 : p = u.path := by
          injection h2 with h3
        subst h3
        exact hmod hp

/-- C6: for a successfully fetched reconcile call with disjoint
modified/added lists, every row of the resulting store either keeps all
identifying fields of a pre-existing row (modified paths are updated in
place, never re-keyed) or is a freshly inserted row for an added path
with `parentPath = dirname path`, `type = "blob"`, `name = basename path`;
every added path with a cached parent directory gains such a row; and no
insert ever happens for a modified path. -/
theorem updateCache_modified_update_added_insert (env : CacheEnv)
    (owner repo branch : String) (removedFiles : List PathOnly)
    (modifiedFiles addedFiles : List FileChange) (db : List CachedEntry)
    (blobs : List Blob)
    (hdisj : ∀ f ∈ modifiedFiles, ∀ g ∈ addedFiles, f.path ≠ g.path)
    (hfetch : env.fetchBlobs (blobExprsOf branch (restrictedFetchSet owner repo
      branch removedFiles modifiedFiles addedFiles db)) = some blobs)
    (hlen : (restrictedFetchSet owner repo branch removedFiles modifiedFiles
      addedFiles db).length ≤ blobs.length) :
    (∀ rr ∈ (updateCache env owner repo branch removedFiles modifiedFiles
        addedFiles db).2.1,
      (∃ r ∈ db, shapePreserved r rr) ∨
        insertedShape owner repo branch addedFiles rr)
    ∧ (∀ f ∈ addedFiles,
        (cachedParentPathsOf owner repo branch (touchedParentPaths removedFiles
          modifiedFiles addedFiles) db).contains (dirname f.path) = true →
        ∃ rr ∈ (updateCache env owner repo branch removedFiles modifiedFiles
          addedFiles db).2.1, addedRowShape f.path rr)
    ∧ (∀ f ∈ modifiedFiles,
        CacheEvent.storeInsert f.path ∉
          (updateCache env owner repo branch removedFiles modifiedFiles
            addedFiles db).2.2) := by
  by_cases hK : restrictedFetchSet owner repo branch removedFiles modifiedFiles
      addedFiles db = []
  · rw [updateCache_eq_of_fetch_empty env owner repo branch removedFiles
      modifiedFiles addedFiles db hK]
    refine ⟨?_, ?_, ?_⟩
    · intro rr hrr
      exact Or.inl ⟨rr, deleteStepDb_subset owner repo branch removedFiles _ db rr hrr,
        rfl, rfl, rfl, rfl, rfl, rfl, rfl⟩
    · intro f hf hcont
      have hmem : f ∈ restrictedFetchSet owner repo branch removedFiles
          modifiedFiles addedFiles db := by
        unfold restrictedFetchSet filesToFetchOf
        exact List.mem_append_right _ (List.mem_filter.mpr ⟨hf, hcont⟩)
      rw [hK] at hmem
      cases hmem
    · intro f hf
      exact storeInsert_not_mem_deleteStepEv _ removedFiles f.path
  · rw [updateCache_eq_of_fetch_some env owner repo branch removedFiles
      modifiedFiles addedFiles db blobs hK hfetch]
    have hus : ∀ u ∈ mkUpdates env.now (restrictedFetchSet owner repo branch
        removedFiles modifiedFiles addedFiles db) blobs,
        u.parentPath = dirname u.path ∧
        ((modifiedFiles.any fun f => f.path == u.path) = true ∨
         (addedFiles.any fun f => f.path == u.path) = true) := by
      intro u hu
      rcases mkUpdates_mem env.now _ blobs u hu with ⟨hpp, f, hfK, hpath⟩
      refine ⟨hpp, ?_⟩
      unfold restrictedFetchSet filesToFetchOf at hfK
      rcases List.mem_append.mp hfK with hfm | hfa
      · exact Or.inl (List.any_eq_true.mpr
          ⟨f, (List.mem_filter.mp hfm).1, by rw [hpath]; simp⟩)
      · exact Or.inr (List.any_eq_true.mpr
          ⟨f, (List.mem_filter.mp hfa).1, by rw [hpath]; simp⟩)
    refine ⟨?_, ?_, ?_⟩
    · apply foldl_applyUpdate_rows_shape owner repo branch modifiedFiles
        addedFiles db _ hus
      intro rr hrr
      exact Or.inl ⟨rr, deleteStepDb_subset owner repo branch removedFiles _ db rr hrr,
        rfl, rfl, rfl, rfl, rfl, rfl, rfl⟩
    · intro f hf hcont
      have hfK : f ∈ restrictedFetchSet owner repo branch removedFiles
          modifiedFiles addedFiles db := by
        unfold restrictedFetchSet filesToFetchOf
        exact List.mem_append_right _ (List.mem_filter.mpr ⟨hf, hcont⟩)
      rcases mem_zip_left _ blobs hlen f hfK with ⟨b, hzip⟩
      have hmodf : ¬ (modifiedFiles.any fun g => g.path == f.path) = true := by
        intro hany
        rcases List.any_eq_true.mp hany with ⟨m, hm, hmp⟩
        exact hdisj m hm f hf (by simpa using hmp)
      exact foldl_applyUpdate_creates owner repo branch modifiedFiles _ _ _ _
        (List.mem_map_of_mem _ hzip) rfl hmodf
    · intro f hf
      apply foldl_applyUpdate_no_insert owner repo branch modifiedFiles f.path
        (List.any_eq_true.mpr ⟨f, hf, by simp⟩)
      intro hmem
      rcases List.mem_append.mp hmem with h | h
      · exact storeInsert_not_mem_deleteStepEv _ removedFiles f.path h
      · exact absurd (List.mem_singleton.mp h) (by simp)

/-- An added file inside the cached directory `docs`. -/
def sampleAdded : FileChange := { path := "docs/new.md", sha := "s3" }

theorem updateCache_modified_update_added_insert_witness :
    ∃ rr ∈ (updateCache sampleCacheEnv "o" "r" "main" [] [] [sampleAdded]
      [sampleEntry]).2.1, addedRowShape "docs/new.md" rr :=
  (updateCache_modified_update_added_insert sampleCacheEnv "o" "r" "main" []
    [] [sampleAdded] [sampleEntry] [{ text := "t2", oid := "s2" }]
    (fun f hf => absurd hf (List.not_mem_nil f)) rfl (by decide)).2.1
    sampleAdded (List.mem_singleton_self _) (by decide)

end CMS
